import Mathlib

/-!
Verification development for the Readwise export program (`export.py`).

The program has two components:
* `fetch_all_documents`: walks the cursor-based pagination of a remote API,
  with a persistent response cache and throttle-retry handling.
* `append_to_file`: appends a sequence of document records to a file in
  `jsonl` or `csv` format, with optional deduplication.

This file shallowly embeds both components.  Network I/O is modelled by an
oracle function from the call index and the request parameters to a response;
the generator loop is modelled with explicit fuel; file contents are modelled
as a raw string (`jsonl`) or as a list of rows of cells (`csv`, abstracting
the csv module's quoting layer, which round-trips cell data).
-/

namespace ReadwiseExport

set_option maxHeartbeats 1000000

/-- The single-quote character `'` (used in Python `repr` of dicts and in the
throttling regex literal of the source). -/
def sq : Char := Char.ofNat 39

/-- The newline character. -/
def nlc : Char := Char.ofNat 10

/-- Left-brace character (Python dict repr / JSON object delimiters). -/
def lbr : Char := Char.ofNat 123

/-- Right-brace character. -/
def rbr : Char := Char.ofNat 125

/-- Decimal digit character for `d < 10` (used to model Python `str(int)`). -/
def digitCh : Nat → Char
  | 0 => '0' | 1 => '1' | 2 => '2' | 3 => '3' | 4 => '4'
  | 5 => '5' | 6 => '6' | 7 => '7' | 8 => '8' | _ => '9'

/-- Lowercase hexadecimal digit character for `d < 16` (used by the
`ensure_ascii` escaping of `json.dumps`). -/
def hexCh : Nat → Char
  | 0 => '0' | 1 => '1' | 2 => '2' | 3 => '3' | 4 => '4'
  | 5 => '5' | 6 => '6' | 7 => '7' | 8 => '8' | 9 => '9'
  | 10 => 'a' | 11 => 'b' | 12 => 'c' | 13 => 'd' | 14 => 'e' | _ => 'f'

/-- Decimal digit list of a natural number, most significant first;
models the digits of Python `str(n)` for `n : Nat`. -/
def natDigits (n : Nat) : List Char :=
  if _h : n < 10 then [digitCh n]
  else natDigits (n / 10) ++ [digitCh (n % 10)]
  decreasing_by exact Nat.div_lt_self (by omega) (by omega)

/-- Python `str` of an integer. -/
def intToStr : Int → String
  | .ofNat m => String.mk (natDigits m)
  | .negSucc m => String.mk ('-' :: natDigits (m + 1))

/-- JSON values: the shape of document records and of the fields inside them
(records are Python objects decoded from the API's JSON). -/
inductive JVal where
  | jnull
  | jbool (b : Bool)
  | jnum (n : Int)
  | jstr (s : String)
  | jarr (elts : List JVal)
  | jobj (fields : List (String × JVal))

/-- Four lowercase hex digits of `n % 65536`, as in `json.dumps`' `\uXXXX`. -/
def hex4 (n : Nat) : List Char :=
  [hexCh (n / 4096 % 16), hexCh (n / 256 % 16), hexCh (n / 16 % 16), hexCh (n % 16)]

/-- Escaping of one character inside a JSON string, following
`json.dumps` with its default `ensure_ascii=True`: the named short escapes,
`\uXXXX` for other control and non-ASCII characters (surrogate pairs above
the BMP), and the character itself for printable ASCII. -/
def escChar (c : Char) : List Char :=
  if c = '"' then ['\\', '"']
  else if c = '\\' then ['\\', '\\']
  else if c = nlc then ['\\', 'n']
  else if c = '\t' then ['\\', 't']
  else if c = '\r' then ['\\', 'r']
  else if c = Char.ofNat 8 then ['\\', 'b']
  else if c = Char.ofNat 12 then ['\\', 'f']
  else if c.toNat < 32 ∨ c.toNat > 126 then
    if c.toNat < 65536 then '\\' :: 'u' :: hex4 c.toNat
    else
      let v := c.toNat - 65536
      ('\\' :: 'u' :: hex4 (55296 + v / 1024)) ++ ('\\' :: 'u' :: hex4 (56320 + v % 1024))
  else [c]

/-- JSON string literal with escaping, as produced by `json.dumps`. -/
def quoteStr (s : String) : String :=
  String.mk ('"' :: s.data.flatMap escChar ++ ['"'])

mutual

/-- Model of `json.dumps` with default arguments (separators `", "` and `": "`,
`ensure_ascii=True`), as used at line 86 of `export.py`. -/
def dumpsJ : JVal → String
  | .jnull => "null"
  | .jbool true => "true"
  | .jbool false => "false"
  | .jnum n => intToStr n
  | .jstr s => quoteStr s
  | .jarr l => "[" ++ dumpsList l ++ "]"
  | .jobj l => String.mk [lbr] ++ dumpsFields l ++ String.mk [rbr]

/-- Elements of a JSON array joined by `", "`. -/
def dumpsList : List JVal → String
  | [] => ""
  | [x] => dumpsJ x
  | x :: y :: rest => dumpsJ x ++ ", " ++ dumpsList (y :: rest)

/-- Fields of a JSON object, `"key": value` joined by `", "`. -/
def dumpsFields : List (String × JVal) → String
  | [] => ""
  | [(k, v)] => quoteStr k ++ ": " ++ dumpsJ v
  | (k, v) :: kv :: rest => quoteStr k ++ ": " ++ dumpsJ v ++ ", " ++ dumpsFields (kv :: rest)

end

/-- A Python dict record: ordered field/value pairs. -/
abbrev Row := List (String × JVal)

/-- A record as passed to `append_to_file`: a dict, or Python `None`. -/
abbrev Rec := Option Row

/-- Python `json.dumps(item)` for a record (`json.dumps(None)` is `"null"`). -/
def dumpsRec : Rec → String
  | none => "null"
  | some kvs => dumpsJ (.jobj kvs)

/-- The characters Python `str.strip()` removes. -/
def isPyWs (c : Char) : Bool :=
  c = ' ' || c = '\t' || c = nlc || c = Char.ofNat 11 || c = Char.ofNat 12 || c = '\r'

/-- Python `str.strip()`: drop leading and trailing whitespace. -/
def pyStrip (s : String) : String :=
  String.mk (((s.data.dropWhile isPyWs).reverse.dropWhile isPyWs).reverse)

/-- Helper for `pyLines`: accumulates the current (reversed) line. -/
def pyLinesAux : List Char → List Char → List String
  | acc, [] => if acc.isEmpty then [] else [String.mk acc.reverse]
  | acc, c :: rest =>
    if c = nlc then String.mk acc.reverse :: pyLinesAux [] rest
    else pyLinesAux (c :: acc) rest

/-- The lines of a file's content as Python file iteration yields them,
except that the terminating newline of each line is dropped here (the source
immediately calls `.strip()` on every line, which removes it anyway). -/
def pyLines (s : String) : List String :=
  pyLinesAux [] s.data

/-! ## The fetcher: `fetch_all_documents` (lines 28–64 of `export.py`) -/

/-- A decoded page response from the API: a JSON mapping with the three
fields the source accesses (`results`, `detail`, `nextPageCursor`); a field
is `none` when the mapping lacks it.  The element type of `results` is a
parameter (the fetcher treats records as opaque). -/
structure Resp (α : Type) where
  results? : Option (List α)
  detail? : Option String
  nextPageCursor? : Option String
deriving DecidableEq

/-- The persistent shelve cache: an association list from string keys to
responses; first binding wins on lookup. -/
abbrev Cache (α : Type) := List (String × Resp α)

/-- Lookup in the cache (`cache_key in cache` / `cache[cache_key]`). -/
def lookupC {α : Type} (k : String) : Cache α → Option (Resp α)
  | [] => none
  | (k2, v) :: rest => if k = k2 then some v else lookupC k rest

/-- The request parameter set built from the current cursor (lines 36–38):
`params["pageCursor"]` is set only when the cursor is truthy, so a `None`
cursor or an empty-string cursor both give the empty parameter set. -/
def paramsOf : Option String → Option String
  | none => none
  | some s => if s.isEmpty then none else some s

/-- The cache key `f"{params}"` (line 39): the Python `str()` of the
parameter dict, `"{}"` or `"{'pageCursor': '<cursor>'}"`.  (Python `repr`
would switch to double quotes for a cursor containing a single-quote
character; API cursors contain none.) -/
def cacheKey : Option String → String
  | none => String.mk [lbr, rbr]
  | some c => String.mk ((lbr :: sq :: "pageCursor".data ++ [sq, ':', ' ', sq]) ++ c.data ++ [sq, rbr])

/-- Python truthiness of the `nextPageCursor` value at line 63
(`if not next_page_cursor: break`): false for a missing cursor and for the
empty string. -/
def nextTruthy : Option String → Bool
  | none => false
  | some s => !s.isEmpty

/-- One element of the throttling regex: a literal character or the regex
wildcard `.` (which in Python matches any character except a newline). -/
inductive PatC where
  | lit (c : Char)
  | wild

/-- Literal pattern from a string. -/
def litPat (s : String) : List PatC := s.data.map PatC.lit

/-- Match a wildcard/literal pattern against a prefix of the input,
returning the remaining input on success. -/
def matchPat : List PatC → List Char → Option (List Char)
  | [], rest => some rest
  | _ :: _, [] => none
  | .lit c :: ps, x :: xs => if x = c then matchPat ps xs else none
  | .wild :: ps, x :: xs => if x = nlc then none else matchPat ps xs

/-- The part of the source's regex before the capture group:
`'Request was throttled. Expected available in ` — note the leading
single-quote character, which is part of the regex literal at line 51, and
the wildcard for the `.` after `throttled`. -/
def throttleHead : List PatC :=
  .lit sq :: litPat "Request was throttled" ++ [.wild] ++ litPat " Expected available in "

/-- The part of the source's regex after the capture group:
` seconds.'` — wildcard for the `.`, then the closing single quote. -/
def throttleTail : List PatC :=
  litPat " seconds" ++ [.wild, .lit sq]

/-- The digits captured by
`re.match("'Request was throttled. Expected available in ([0-9]*) seconds.'", detail)`:
`none` when the regex does not match at the start of `detail`, otherwise the
(possibly empty) digit group.  `[0-9]*` is greedy, and since the character
after the group in the pattern is a literal space, backtracking out of the
digit run can never succeed, so taking the maximal digit run is exact. -/
def throttleRegexDigits (detail : String) : Option (List Char) :=
  match matchPat throttleHead detail.data with
  | none => none
  | some rest =>
    match matchPat throttleTail (rest.dropWhile Char.isDigit) with
    | none => none
    | some _ => some (rest.takeWhile Char.isDigit)

/-- Python `int` of a nonempty digit string. -/
def natOfDigits (ds : List Char) : Nat :=
  ds.foldl (fun a c => a * 10 + (c.toNat - 48)) 0

/-- How a run of the fetch loop ended. -/
inductive Outcome where
  | done
  | error (msg : String)
  | fuelOut
deriving DecidableEq

/-- Message for `ValueError(f"Error fetching data: ...")` at line 57. -/
def fetchErrMsg : String := "ValueError: Error fetching data"

/-- The uncaught `ValueError` from `int('')` when the digit group is empty. -/
def intErrMsg : String := "ValueError: invalid literal for int"

/-- The uncaught `KeyError` from `response_json["results"]` at line 60 when a
cached response lacks the `results` field (impossible for entries the program
itself wrote, possible for an arbitrary pre-existing store). -/
def keyErrMsg : String := "KeyError: results"

/-- The observable behaviour of a run of the generator: the records it
yields in order, the final cache store, the number of network requests, the
sleep durations in order, and how it ended. -/
structure RunResult (α : Type) where
  emitted : List α
  cache : Cache α
  calls : Nat
  sleeps : List Nat
  outcome : Outcome
deriving DecidableEq

/-- Emitting one page (lines 60–64): yield the page's `results` in order,
then advance to its `nextPageCursor`; a falsy cursor terminates ("this was
the last page"). `recur` is the rest of the loop. -/
def emitPage {α : Type} (recur : Nat → Option String → Cache α → RunResult α)
    (i : Nat) (rs : List α) (next : Option String) (cache : Cache α) : RunResult α :=
  if nextTruthy next then
    let r := recur i next cache
    ⟨rs ++ r.emitted, r.cache, r.calls, r.sleeps, r.outcome⟩
  else ⟨rs, cache, 0, [], .done⟩

/-- One iteration of the `while True:` loop of `fetch_all_documents`
(lines 35–64): build the cache key from the cursor, use the cached response
if present (no network call), otherwise perform the network request
(`api i params`, where `i` counts the requests made so far), handling the
throttling retry and the fatal error, and caching a successful response
before emitting it. -/
def fetchStep {α : Type} (api : Nat → Option String → Resp α)
    (recur : Nat → Option String → Cache α → RunResult α)
    (i : Nat) (cursor : Option String) (cache : Cache α) : RunResult α :=
  let key := cacheKey (paramsOf cursor)
  match lookupC key cache with
  | some resp =>
    match resp.results? with
    | some rs => emitPage recur i rs resp.nextPageCursor? cache
    | none => ⟨[], cache, 0, [], .error keyErrMsg⟩
  | none =>
    let resp := api i (paramsOf cursor)
    match resp.results? with
    | some rs =>
      let r := emitPage recur (i + 1) rs resp.nextPageCursor? (cache ++ [(key, resp)])
      ⟨r.emitted, r.cache, r.calls + 1, r.sleeps, r.outcome⟩
    | none =>
      match resp.detail? with
      | some d =>
        match throttleRegexDigits d with
        | some ds =>
          if ds.isEmpty then ⟨[], cache, 1, [], .error intErrMsg⟩
          else
            let r := recur (i + 1) cursor cache
            ⟨r.emitted, r.cache, r.calls + 1, natOfDigits ds :: r.sleeps, r.outcome⟩
        | none => ⟨[], cache, 1, [], .error fetchErrMsg⟩
      | none => ⟨[], cache, 1, [], .error fetchErrMsg⟩

/-- The generator `fetch_all_documents(token)` (lines 28–64), as a fuelled loop.  `api`
models the remote service for the fixed credential: the response to the
`i`-th network request of the run, for a given parameter set.  `i` is the
number of requests already made, `cursor` the current pagination cursor and
`cache` the persistent store.  Fuel bounds the number of loop iterations;
a run that would loop longer ends with the `fuelOut` marker. -/
def fetch_all_documents {α : Type} (api : Nat → Option String → Resp α) :
    Nat → Nat → Option String → Cache α → RunResult α
  | 0, _, _, cache => ⟨[], cache, 0, [], .fuelOut⟩
  | fuel + 1, i, cursor, cache =>
    fetchStep api (fetch_all_documents api fuel) i cursor cache

/-- The `results` of a page (`[]` for a page with no `results` field; the
chains we quantify over always have the field). -/
def resultsOf {α : Type} (p : Resp α) : List α := p.results?.getD []

/-- A finite pagination chain under the (deterministic) remote state `api`:
starting from `cursor`, each page is the response for the current parameter
set, every page has a `results` field, every page except the last carries a
truthy continuation cursor leading to the next page, and the last page
does not. -/
def isChain {α : Type} (api : Option String → Resp α) : Option String → List (Resp α) → Prop
  | _, [] => False
  | c, [p] => api (paramsOf c) = p ∧ p.results?.isSome = true ∧ nextTruthy p.nextPageCursor? = false
  | c, p :: q :: rest => api (paramsOf c) = p ∧ p.results?.isSome = true ∧
      nextTruthy p.nextPageCursor? = true ∧ isChain api p.nextPageCursor? (q :: rest)

/-- The cache store is consistent with the remote state `api`: every cached
binding for the key of a parameter set holds the response `api` gives for
that parameter set. -/
def cacheAgrees {α : Type} (api : Option String → Resp α) (cache : Cache α) : Prop :=
  ∀ p v, lookupC (cacheKey p) cache = some v → v = api p

/-! ## The exporter: `append_to_file` (lines 67–109 of `export.py`) -/

mutual

/-- Python `repr` of a JSON-decoded value, used by `str()` on lists and
dicts when the csv writer stringifies a non-scalar cell.  String `repr` is
modelled as plain single-quoting (exact for strings without quote, backslash
or control characters, which is the only place this function is used). -/
def pyReprJ : JVal → String
  | .jnull => "None"
  | .jbool true => "True"
  | .jbool false => "False"
  | .jnum n => intToStr n
  | .jstr s => String.mk (sq :: s.data ++ [sq])
  | .jarr l => "[" ++ pyReprList l ++ "]"
  | .jobj l => String.mk [lbr] ++ pyReprFields l ++ String.mk [rbr]

/-- Elements of a list repr joined by `", "`. -/
def pyReprList : List JVal → String
  | [] => ""
  | [x] => pyReprJ x
  | x :: y :: rest => pyReprJ x ++ ", " ++ pyReprList (y :: rest)

/-- Entries of a dict repr, `'key': value` joined by `", "`. -/
def pyReprFields : List (String × JVal) → String
  | [] => ""
  | [(k, v)] => String.mk (sq :: k.data ++ [sq]) ++ ": " ++ pyReprJ v
  | (k, v) :: kv :: rest =>
      String.mk (sq :: k.data ++ [sq]) ++ ": " ++ pyReprJ v ++ ", " ++ pyReprFields (kv :: rest)

end

/-- The string the csv writer puts in a cell for a field value: `None` is
written as the empty string, strings are written as-is, any other object is
stringified with `str()`. -/
def csvCell : JVal → String
  | .jnull => ""
  | .jstr s => s
  | .jnum n => intToStr n
  | .jbool true => "True"
  | .jbool false => "False"
  | .jarr l => pyReprJ (.jarr l)
  | .jobj l => pyReprJ (.jobj l)

/-- First binding of a key in a record dict. -/
def lookupRow (k : String) : Row → Option JVal
  | [] => none
  | (k2, v) :: rest => if k = k2 then some v else lookupRow k rest

/-- The row of cells `csv.DictWriter.writerow` emits for a record, given the
writer's field names: `rowdict.get(key, restval)` for each field name, with
the default `restval=''`, each converted by the csv writer. -/
def rowCells (fieldnames : List String) (r : Row) : List String :=
  fieldnames.map fun k =>
    match lookupRow k r with
    | some v => csvCell v
    | none => ""

/-- Whether the record has a key outside the writer's field names, in which
case `DictWriter.writerow` (default `extrasaction='raise'`) raises
`ValueError`. -/
def rowHasExtraKeys (fieldnames : List String) (r : Row) : Bool :=
  r.any fun kv => !(fieldnames.any fun f => f = kv.1)

/-- Zip a data row with the header, padding missing cells with the
`DictReader` default `restval=None`. -/
def zipPadNone : List String → List String → List (String × Option String)
  | [], _ => []
  | k :: ks, [] => (k, none) :: zipPadNone ks []
  | k :: ks, c :: cs => (k, some c) :: zipPadNone ks cs

/-- A dict produced by `csv.DictReader`: field name to cell (or `None` for a
missing cell), plus a flag recording whether the row was longer than the
header (in which case the dict also holds extras under the `None` restkey,
making it unequal to any record dict with string keys). -/
abbrev ReadRow := List (String × Option String) × Bool

/-- First binding of a key in a read-back dict. -/
def lookupRead (k : String) : List (String × Option String) → Option (Option String)
  | [] => none
  | (k2, v) :: rest => if k = k2 then some v else lookupRead k rest

/-- Model of `list(csv.DictReader(f))` over the rows of the file: the first row is
the header, blank rows are skipped, short rows are padded with `None`. -/
def csvReadback : List (List String) → List ReadRow
  | [] => []
  | header :: rows =>
    (rows.filter fun cells => !cells.isEmpty).map fun cells =>
      (zipPadNone header cells, decide (header.length < cells.length))

/-- Python `==` between a record value and a read-back cell: a read-back
cell is a `str` (or the `None` restval), so it equals the record's value
exactly when the latter is the same string (resp. `None`). -/
def valEqStr : JVal → Option String → Bool
  | .jstr s, some t => s = t
  | .jnull, none => true
  | _, _ => false

/-- Python `==` between a record dict and a read-back dict: same key set and
equal values (and the read-back dict must not carry a restkey entry). -/
def pyDictEq (r : Row) (e : ReadRow) : Bool :=
  !e.2
    && (r.all fun kv =>
        match lookupRead kv.1 e.1 with
        | some c => valEqStr kv.2 c
        | none => false)
    && (e.1.all fun kc => r.any fun kv => kv.1 = kc.1)

/-- The `StopIteration` escaping from `next(iter(first_items))` on an empty
input sequence (line 99; `append_to_file` is not a generator, so it
propagates). -/
def stopIterMsg : String := "StopIteration"

/-- The `ValueError` from `DictWriter.writerow` for a record with fields
outside the writer's field names. -/
def extraKeysMsg : String := "ValueError: dict contains fields not in fieldnames"

/-- The `AttributeError` from `DictWriter.writerow(None)` (a `None` record
after the first position reaches `writerow`, since `None` compares unequal
to every read-back dict). -/
def noneRowMsg : String := "AttributeError: NoneType has no keys"

/-- The csv writing loop (lines 105–107): for each record, write its row
unless duplicates are disallowed and an equal record exists among the rows
read back at the start of the call; an error stops the loop.  Returns the
rows written and the error, if any. -/
def csvWriteLoop (allow_duplicates : Bool) (fieldnames : List String)
    (existing_data : List ReadRow) : List Rec → List (List String) × Option String
  | [] => ([], none)
  | none :: _ => ([], some noneRowMsg)
  | some r :: rest =>
    if allow_duplicates || !(existing_data.any (pyDictEq r)) then
      if rowHasExtraKeys fieldnames r then ([], some extraKeysMsg)
      else
        let w := csvWriteLoop allow_duplicates fieldnames existing_data rest
        (rowCells fieldnames r :: w.1, w.2)
    else csvWriteLoop allow_duplicates fieldnames existing_data rest

/-- The destination file's content: text for the line-record format, rows of
cells for the tabular format (abstracting the csv module's quoting layer,
which round-trips cell data). -/
inductive FileData where
  | text (s : String)
  | table (rows : List (List String))
deriving DecidableEq

/-- The observable behaviour of one `append_to_file` call: the file after
the call (`none` when it still does not exist), the exception raised if any,
and whether the destination file was opened for reading (the dedup pass). -/
structure AppendOut where
  disk : Option FileData
  err : Option String
  didRead : Bool
deriving DecidableEq

/-- Python `in` for a list of strings. -/
def pyInStr (s : String) (l : List String) : Bool :=
  l.any fun t => t = s

/-- The serialized lines written by the jsonl loop (lines 85–88): each
record's `json.dumps`, followed by a newline, unless duplicates are
disallowed and the stripped serialization is already among the stripped
existing lines. -/
def jsonlWrite (allow_duplicates : Bool) (existing_data_lines : List String) :
    List Rec → String
  | [] => ""
  | r :: rest =>
    (if allow_duplicates || !(pyInStr (pyStrip (dumpsRec r)) existing_data_lines)
      then dumpsRec r ++ String.mk [nlc] else "")
      ++ jsonlWrite allow_duplicates existing_data_lines rest

/-- The `jsonl` branch of `append_to_file` (lines 77–88).  `file` is the
destination's content before the call (`none`: no such file).  Existing
lines are read (stripped) only when not overwriting and the file exists;
opening with mode `"w"` truncates, mode `"a"` appends, and either mode
creates the file. -/
def appendJsonl (data : List Rec) (overwrite allow_duplicates : Bool)
    (file : Option String) : AppendOut :=
  let ex : Bool := file.isSome
  let existing_data_lines : List String :=
    if !overwrite && ex then (pyLines (file.getD "")).map pyStrip else []
  let content0 : String := if overwrite then "" else file.getD ""
  ⟨some (.text (content0 ++ jsonlWrite allow_duplicates existing_data_lines data)),
    none, !overwrite && ex⟩

/-- The `csv` branch of `append_to_file` (lines 89–107).  Existing rows are
read back through `DictReader` only when not overwriting and the file
exists.  The file is opened (and hence created) *before* the first record is
peeked, so an empty input leaves an empty created file and raises
`StopIteration`; and the `os.path.exists` test guarding the header row runs
after that open, so it is always true and a header is written only when
overwriting. -/
def appendCsv (data : List Rec) (overwrite allow_duplicates : Bool)
    (file : Option (List (List String))) : AppendOut :=
  let ex : Bool := file.isSome
  let existing_data : List ReadRow :=
    if !overwrite && ex then csvReadback (file.getD []) else []
  let rows0 : List (List String) := if overwrite then [] else file.getD []
  -- the file exists from this point on: open(file_path, mode) created it
  let existsAfterOpen : Bool := true
  match data with
  | [] => ⟨some (.table rows0), some stopIterMsg, !overwrite && ex⟩
  | first :: _ =>
    match first with
    | none => ⟨some (.table rows0), none, !overwrite && ex⟩
    | some firstRow =>
      let fieldnames := firstRow.map Prod.fst
      let headerRows : List (List String) :=
        if overwrite || !existsAfterOpen then [fieldnames] else []
      let w := csvWriteLoop allow_duplicates fieldnames existing_data data
      ⟨some (.table (rows0 ++ headerRows ++ w.1)), w.2, !overwrite && ex⟩

/-- Python `Path(file_path).suffix`: the last component's extension including the
dot, empty when the last dot is at the start or the end of the name. -/
def pySuffix (file_path : String) : String :=
  let name := (file_path.data.reverse.takeWhile fun c => c ≠ '/').reverse
  let extRev := name.reverse.takeWhile fun c => c ≠ '.'
  if extRev.length = name.length then ""
  else
    let i := name.length - extRev.length - 1
    if 0 < i ∧ i < name.length - 1 then String.mk (name.drop i) else ""

/-- Python `.lstrip(".")`: drop all leading dots. -/
def lstripDots (s : String) : String :=
  String.mk (s.data.dropWhile fun c => c = '.')

/-- The resolved format (lines 75–76): the explicit `file_format` argument,
or the destination path's extension without its dots. -/
def resolvedFormat (file_format : Option String) (file_path : String) : String :=
  match file_format with
  | some f => f
  | none => lstripDots (pySuffix file_path)

/-- The operation `append_to_file(data, file_path, file_format, overwrite=…,
allow_duplicates=…)` over the destination file's prior content.  The two
`"model:"` error arms are unreachable for a destination whose content has
the shape of its format; they only keep the two file models in one type. -/
def append_to_file (data : List Rec) (file_path : String) (file_format : Option String)
    (overwrite allow_duplicates : Bool) (disk : Option FileData) : AppendOut :=
  let fmt := resolvedFormat file_format file_path
  if fmt = "jsonl" then
    match disk with
    | some (.table _) => ⟨disk, some "model: file content is not text", false⟩
    | some (.text s) => appendJsonl data overwrite allow_duplicates (some s)
    | none => appendJsonl data overwrite allow_duplicates none
  else if fmt = "csv" then
    match disk with
    | some (.text _) => ⟨disk, some "model: file content is not tabular", false⟩
    | some (.table t) => appendCsv data overwrite allow_duplicates (some t)
    | none => appendCsv data overwrite allow_duplicates none
  else ⟨disk, some ("Unsupported file format: " ++ fmt), false⟩

/-- The text content of a file state (for stating jsonl claims). -/
def textOf : Option FileData → String
  | some (.text s) => s
  | _ => ""

/-- The rows of a file state (for stating csv claims). -/
def tableRows : Option FileData → List (List String)
  | some (.table t) => t
  | _ => []

/-! ## Concrete fixtures used by witnesses and counterexamples -/

/-- A one-page remote state. -/
def apiOneW : Nat → Option String → Resp Nat := fun _ _ => ⟨some [3], none, none⟩

/-- First page of a two-page chain. -/
def pageOneW : Resp Nat := ⟨some [1], none, some "c1"⟩

/-- Second (terminal) page of a two-page chain. -/
def pageTwoW : Resp Nat := ⟨some [2], none, none⟩

/-- A two-page remote state. -/
def apiChainW : Option String → Resp Nat := fun p =>
  match p with
  | none => pageOneW
  | some _ => pageTwoW

/-- A throttling `detail` message in the form the source's regex expects:
surrounded by single-quote characters. -/
def detQuotedW : String :=
  String.mk (sq :: "Request was throttled. Expected available in 5 seconds.".data ++ [sq])

/-- The same throttling message without the surrounding single quotes — the
form the spec's prose (and the live API) uses. -/
def detPlainW : String := "Request was throttled. Expected available in 5 seconds."

/-- A remote state that throttles on the first request and succeeds on the
retry. -/
def apiThrottleW : Nat → Option String → Resp Nat := fun i _ =>
  if i = 0 then ⟨none, some detQuotedW, none⟩ else ⟨some [7], none, none⟩

/-- A remote state that always answers with the unquoted throttling
message. -/
def apiPlainW : Nat → Option String → Resp Nat := fun _ _ => ⟨none, some detPlainW, none⟩

/-- A cached response for the cache-invariant witness. -/
def respKW : Resp Nat := ⟨some [9], none, none⟩

/-- Record sequence for the csv error-truncation counterexample: the second
record has a field (`b`) outside the first record's field names, so the
first call dies in `writerow` before reaching the third record. -/
def cdataW : List Rec :=
  [some [("a", .jstr "1")], some [("a", .jstr "1"), ("b", .jnull)], some [("a", .jstr "9")]]

/-! ## Helper lemmas -/

theorem strExt {s t : String} (h : s.data = t.data) : s = t := by
  cases s; cases t; exact congrArg String.mk h

theorem pyInStr_true {l : List String} {s : String} : pyInStr s l = true ↔ s ∈ l := by
  rw [pyInStr, List.any_eq_true]
  constructor
  · rintro ⟨x, hx, he⟩; exact (of_decide_eq_true he) ▸ hx
  · intro hs; exact ⟨s, hs, by simp⟩

theorem pyInStr_false {l : List String} {s : String} : pyInStr s l = false ↔ s ∉ l := by
  rw [← Bool.not_eq_true, pyInStr_true]

theorem lookupC_append_some {α : Type} {k : String} {c : Cache α} {v : Resp α}
    (h : lookupC k c = some v) (d : Cache α) : lookupC k (c ++ d) = some v := by
  induction c with
  | nil => simp [lookupC] at h
  | cons kv rest ih =>
    rw [List.cons_append]
    rw [lookupC] at h ⊢
    by_cases hk : k = kv.1
    · simpa [hk] using h
    · rw [if_neg hk] at h ⊢; exact ih h

theorem lookupC_append_none {α : Type} {k : String} {c : Cache α}
    (h : lookupC k c = none) (d : Cache α) : lookupC k (c ++ d) = lookupC k d := by
  induction c with
  | nil => simp
  | cons kv rest ih =>
    rw [List.cons_append]
    rw [lookupC] at h ⊢
    by_cases hk : k = kv.1
    · simp [hk] at h
    · rw [if_neg hk] at h ⊢; exact ih h

theorem lookupC_append_none_left {α : Type} {k : String} {c d : Cache α}
    (h : lookupC k (c ++ d) = none) : lookupC k c = none := by
  cases hc : lookupC k c with
  | none => rfl
  | some v => rw [lookupC_append_some hc d] at h; cases h

theorem lookupC_single {α : Type} (k : String) (v : Resp α) :
    lookupC k [(k, v)] = some v := by simp [lookupC]

/-- Bindings present in the cache survive any run of the fetch loop:
the loop only ever appends fresh keys. -/
theorem run_lookup_mono {α : Type} (api : Nat → Option String → Resp α) :
    ∀ (fuel i : Nat) (cursor : Option String) (cache : Cache α) (k : String) (v : Resp α),
      lookupC k cache = some v →
      lookupC k (fetch_all_documents api fuel i cursor cache).cache = some v := by
  intro fuel
  induction fuel with
  | zero => intro i cursor cache k v h; simpa [fetch_all_documents] using h
  | succ f ih =>
    intro i cursor cache k v h
    rw [fetch_all_documents, fetchStep]
    cases hl : lookupC (cacheKey (paramsOf cursor)) cache with
    | some resp =>
      simp only [hl]
      cases hres : resp.results? with
      | some rs =>
        simp only [hres, emitPage]
        by_cases hnt : nextTruthy resp.nextPageCursor? = true
        · simp only [hnt, if_true]; exact ih _ _ _ _ _ h
        · simp only [Bool.not_eq_true] at hnt; simp only [hnt, Bool.false_eq_true, if_false]
          exact h
      | none => simpa [hres] using h
    | none =>
      simp only [hl]
      cases hres : (api i (paramsOf cursor)).results? with
      | some rs =>
        simp only [hres, emitPage]
        by_cases hnt : nextTruthy (api i (paramsOf cursor)).nextPageCursor? = true
        · simp only [hnt, if_true]
          exact ih _ _ _ _ _ (lookupC_append_some h _)
        · simp only [Bool.not_eq_true] at hnt; simp only [hnt, Bool.false_eq_true, if_false]
          exact lookupC_append_some h _
      | none =>
        cases hdet : (api i (paramsOf cursor)).detail? with
        | some d =>
          cases hm : throttleRegexDigits d with
          | some ds =>
            by_cases hds : ds.isEmpty = true
            · simpa [hres, hdet, hm, hds] using h
            · simp only [Bool.not_eq_true] at hds
              simp only [hres, hdet, hm, hds, Bool.false_eq_true, if_false]
              exact ih _ _ _ _ _ h
          | none => simpa [hres, hdet, hm] using h
        | none => simpa [hres, hdet] using h

/-- Any run only appends to the cache: fresh keys only, and only responses
that have a `results` field. -/
theorem run_cache_ext {α : Type} (api : Nat → Option String → Resp α) :
    ∀ (fuel i : Nat) (cursor : Option String) (cache : Cache α),
      ∃ ext, (fetch_all_documents api fuel i cursor cache).cache = cache ++ ext
        ∧ (ext.map Prod.fst).Nodup
        ∧ ∀ kv ∈ ext, lookupC kv.1 cache = none ∧ kv.2.results?.isSome = true := by
  intro fuel
  induction fuel with
  | zero =>
    intro i cursor cache
    exact ⟨[], by simp [fetch_all_documents], by simp, by simp⟩
  | succ f ih =>
    intro i cursor cache
    rw [fetch_all_documents, fetchStep]
    cases hl : lookupC (cacheKey (paramsOf cursor)) cache with
    | some resp =>
      simp only [hl]
      cases hres : resp.results? with
      | some rs =>
        simp only [hres, emitPage]
        by_cases hnt : nextTruthy resp.nextPageCursor? = true
        · simp only [hnt, if_true]
          exact ih i resp.nextPageCursor? cache
        · simp only [Bool.not_eq_true] at hnt
          simp only [hnt, Bool.false_eq_true, if_false]
          exact ⟨[], by simp, by simp, by simp⟩
      | none =>
        simp only [hres]
        exact ⟨[], by simp, by simp, by simp⟩
    | none =>
      simp only [hl]
      cases hres : (api i (paramsOf cursor)).results? with
      | some rs =>
        simp only [hres, emitPage]
        have hk2 : lookupC (cacheKey (paramsOf cursor))
            (cache ++ [(cacheKey (paramsOf cursor), api i (paramsOf cursor))])
            = some (api i (paramsOf cursor)) := by
          rw [lookupC_append_none hl, lookupC_single]
        by_cases hnt : nextTruthy (api i (paramsOf cursor)).nextPageCursor? = true
        · simp only [hnt, if_true]
          obtain ⟨ext, h1, h2, h3⟩ := ih (i + 1) (api i (paramsOf cursor)).nextPageCursor?
            (cache ++ [(cacheKey (paramsOf cursor), api i (paramsOf cursor))])
          refine ⟨(cacheKey (paramsOf cursor), api i (paramsOf cursor)) :: ext, ?_, ?_, ?_⟩
          · simp only [h1, List.append_assoc, List.singleton_append]
          · refine List.nodup_cons.mpr ⟨?_, h2⟩
            intro hmem
            obtain ⟨kv, hkv, hfst⟩ := List.mem_map.mp hmem
            have := (h3 kv hkv).1
            rw [hfst, hk2] at this
            cases this
          · intro kv hkv
            rcases List.mem_cons.mp hkv with h | h
            · subst h
              exact ⟨hl, by rw [hres]; rfl⟩
            · obtain ⟨hn, hs⟩ := h3 kv h
              exact ⟨lookupC_append_none_left hn, hs⟩
        · simp only [Bool.not_eq_true] at hnt
          simp only [hnt, Bool.false_eq_true, if_false]
          refine ⟨[(cacheKey (paramsOf cursor), api i (paramsOf cursor))], rfl, by simp, ?_⟩
          intro kv hkv
          rcases List.mem_cons.mp hkv with h | h
          · subst h; exact ⟨hl, by rw [hres]; rfl⟩
          · cases h
      | none =>
        cases hdet : (api i (paramsOf cursor)).detail? with
        | some d =>
          cases hm : throttleRegexDigits d with
          | some ds =>
            by_cases hds : ds.isEmpty = true
            · simp only [hres, hdet, hm, hds, if_true]
              exact ⟨[], by simp, by simp, by simp⟩
            · simp only [Bool.not_eq_true] at hds
              simp only [hres, hdet, hm, hds, Bool.false_eq_true, if_false]
              exact ih (i + 1) cursor cache
          | none =>
            simp only [hres, hdet, hm]
            exact ⟨[], by simp, by simp, by simp⟩
        | none =>
          simp only [hres, hdet]
          exact ⟨[], by simp, by simp, by simp⟩

/-- Distinct parameter sets have distinct cache keys. -/
theorem cacheKey_inj : ∀ {p q : Option String}, cacheKey p = cacheKey q → p = q := by
  have hlen : ∀ (c : String),
      (cacheKey (some c)).data.length = 18 + c.data.length := by
    intro c
    show ((lbr :: sq :: "pageCursor".data ++ [sq, ':', ' ', sq]) ++ c.data ++ [sq, rbr]).length
      = 18 + c.data.length
    have h10 : "pageCursor".data.length = 10 := rfl
    simp [List.length_append, h10]
    omega
  intro p q h
  cases p with
  | none =>
    cases q with
    | none => rfl
    | some c =>
      exfalso
      have := congrArg (fun s => s.data.length) h
      simp only at this
      rw [hlen] at this
      have h2 : (cacheKey none).data.length = 2 := rfl
      omega
  | some c =>
    cases q with
    | none =>
      exfalso
      have := congrArg (fun s => s.data.length) h
      simp only at this
      rw [hlen] at this
      have h2 : (cacheKey none).data.length = 2 := rfl
      omega
    | some c2 =>
      have hd := congrArg String.data h
      show _
      rw [cacheKey, cacheKey] at hd
      simp only at hd
      have hd2 : (lbr :: sq :: "pageCursor".data ++ [sq, ':', ' ', sq]) ++ c.data ++ [sq, rbr]
          = (lbr :: sq :: "pageCursor".data ++ [sq, ':', ' ', sq]) ++ c2.data ++ [sq, rbr] := hd

      have h3 := List.append_cancel_right hd2
      have h4 := List.append_cancel_left h3
      rw [strExt h4]

/-- Inserting the response the remote state gives for a fresh key preserves
cache/remote agreement. -/
theorem cacheAgrees_insert {α : Type} {api : Option String → Resp α} {cache : Cache α}
    {p0 : Option String} (hc : cacheAgrees api cache) :
    cacheAgrees api (cache ++ [(cacheKey p0, api p0)]) := by
  intro p v h
  cases hpc : lookupC (cacheKey p) cache with
  | some w =>
    rw [lookupC_append_some hpc] at h
    cases h
    exact hc p _ hpc
  | none =>
    rw [lookupC_append_none hpc] at h
    rw [lookupC] at h
    by_cases he : cacheKey p = cacheKey p0
    · rw [if_pos he] at h
      cases h
      rw [cacheKey_inj he]
    · rw [if_neg he] at h
      cases h

/-- A run that ended normally can be replayed from its final cache with any
remote state: every page is served from the cache, no network request is
made, no sleep happens, and the same records are emitted in the same
order. -/
theorem run_replay {α : Type} (api api2 : Nat → Option String → Resp α) :
    ∀ (fuel i : Nat) (cursor : Option String) (cache : Cache α) (r : RunResult α),
      fetch_all_documents api fuel i cursor cache = r →
      r.outcome = .done → ∀ f2, fuel ≤ f2 →
      fetch_all_documents api2 f2 0 cursor r.cache = ⟨r.emitted, r.cache, 0, [], .done⟩ := by
  intro fuel
  induction fuel with
  | zero =>
    intro i cursor cache r hr hdone f2 hf2
    rw [fetch_all_documents] at hr
    subst hr
    cases hdone
  | succ f ih =>
    intro i cursor cache r hr hdone f2 hf2
    cases f2 with
    | zero => omega
    | succ f2' =>
      have hf2' : f ≤ f2' := by omega
      rw [fetch_all_documents, fetchStep] at hr
      cases hl : lookupC (cacheKey (paramsOf cursor)) cache with
      | some resp =>
        rw [hl] at hr
        simp only at hr
        cases hres : resp.results? with
        | some rs =>
          rw [hres] at hr
          simp only [emitPage] at hr
          by_cases hnt : nextTruthy resp.nextPageCursor? = true
          · rw [if_pos hnt] at hr
            subst hr
            simp only at hdone ⊢
            rw [fetch_all_documents, fetchStep]
            have hre : lookupC (cacheKey (paramsOf cursor))
                (fetch_all_documents api f i resp.nextPageCursor? cache).cache = some resp :=
              run_lookup_mono api f i resp.nextPageCursor? cache _ _ hl
            rw [hre]
            simp only [hres, emitPage, if_pos hnt]
            rw [ih i resp.nextPageCursor? cache _ rfl hdone f2' hf2']
          · rw [if_neg hnt] at hr
            subst hr
            simp only at hdone ⊢
            rw [fetch_all_documents, fetchStep, hl]
            simp only [hres, emitPage]
            rw [if_neg hnt]
        | none =>
          rw [hres] at hr
          subst hr
          cases hdone
      | none =>
        rw [hl] at hr
        simp only at hr
        cases hres : (api i (paramsOf cursor)).results? with
        | some rs =>
          rw [hres] at hr
          simp only [emitPage] at hr
          have hk2 : lookupC (cacheKey (paramsOf cursor))
              (cache ++ [(cacheKey (paramsOf cursor), api i (paramsOf cursor))])
              = some (api i (paramsOf cursor)) := by
            rw [lookupC_append_none hl, lookupC_single]
          by_cases hnt : nextTruthy (api i (paramsOf cursor)).nextPageCursor? = true
          · rw [if_pos hnt] at hr
            subst hr
            simp only at hdone ⊢
            rw [fetch_all_documents, fetchStep]
            have hre : lookupC (cacheKey (paramsOf cursor))
                (fetch_all_documents api f (i + 1) (api i (paramsOf cursor)).nextPageCursor?
                  (cache ++ [(cacheKey (paramsOf cursor), api i (paramsOf cursor))])).cache
                = some (api i (paramsOf cursor)) :=
              run_lookup_mono api f (i + 1) _ _ _ _ hk2
            rw [hre]
            simp only [hres, emitPage, if_pos hnt]
            rw [ih (i + 1) (api i (paramsOf cursor)).nextPageCursor?
              (cache ++ [(cacheKey (paramsOf cursor), api i (paramsOf cursor))]) _ rfl hdone f2' hf2']
          · rw [if_neg hnt] at hr
            subst hr
            simp only at hdone ⊢
            rw [fetch_all_documents, fetchStep, hk2]
            simp only [hres, emitPage]
            rw [if_neg hnt]
        | none =>
          rw [hres] at hr
          simp only at hr
          cases hdet : (api i (paramsOf cursor)).detail? with
          | some d =>
            rw [hdet] at hr
            simp only at hr
            cases hm : throttleRegexDigits d with
            | some ds =>
              rw [hm] at hr
              simp only at hr
              by_cases hds : ds.isEmpty = true
              · rw [if_pos hds] at hr
                subst hr
                cases hdone
              · rw [if_neg hds] at hr
                subst hr
                simp only at hdone ⊢
                exact ih (i + 1) cursor cache _ rfl hdone (f2' + 1) (by omega)
            | none =>
              rw [hm] at hr
              simp only at hr
              subst hr
              cases hdone
          | none =>
            rw [hdet] at hr
            simp only at hr
            subst hr
            cases hdone

/-- Under a cache that agrees with the remote state, walking a pagination
chain emits exactly the concatenation of the chain's `results`, in order,
performs no sleep, and terminates normally at the chain's final page. -/
theorem run_chain {α : Type} (api : Option String → Resp α) :
    ∀ (pages : List (Resp α)) (cursor : Option String) (cache : Cache α) (i : Nat),
      cacheAgrees api cache → isChain api cursor pages →
      ∃ (cach : Cache α) (n : Nat),
        fetch_all_documents (fun _ => api) pages.length i cursor cache
          = ⟨(pages.map resultsOf).flatten, cach, n, [], .done⟩ := by
  intro pages
  induction pages with
  | nil =>
    intro cursor cache i _ hchain
    exact hchain.elim
  | cons p rest ih =>
    intro cursor cache i hc hchain
    cases rest with
    | nil =>
      obtain ⟨hp, hres, hnt⟩ := hchain
      obtain ⟨rs, hrs⟩ := Option.isSome_iff_exists.mp hres
      simp only [List.length_cons, List.length_nil]
      rw [fetch_all_documents, fetchStep]
      cases hl : lookupC (cacheKey (paramsOf cursor)) cache with
      | some v =>
        have hv : v = p := by rw [hc (paramsOf cursor) v hl, hp]
        subst hv
        refine ⟨cache, 0, ?_⟩
        simp only [hl, hrs, emitPage, hnt, Bool.false_eq_true, if_false]
        simp [resultsOf, hrs]
      | none =>
        simp only [hl]
        rw [hp]
        refine ⟨cache ++ [(cacheKey (paramsOf cursor), p)], 1, ?_⟩
        simp only [hrs, emitPage, hnt, Bool.false_eq_true, if_false]
        simp [resultsOf, hrs]
    | cons q rest2 =>
      obtain ⟨hp, hres, hnt, hchain2⟩ := hchain
      obtain ⟨rs, hrs⟩ := Option.isSome_iff_exists.mp hres
      simp only [List.length_cons]
      rw [fetch_all_documents, fetchStep]
      cases hl : lookupC (cacheKey (paramsOf cursor)) cache with
      | some v =>
        have hv : v = p := by rw [hc (paramsOf cursor) v hl, hp]
        subst hv
        obtain ⟨c2, n2, hrun⟩ := ih (Resp.nextPageCursor? v) cache i hc hchain2
        refine ⟨c2, n2, ?_⟩
        simp only [hl, hrs, emitPage, hnt, if_true, List.length_cons] at hrun ⊢
        rw [hrun]
        simp [resultsOf, hrs]
      | none =>
        simp only [hl]
        rw [hp]
        have hc2 := @cacheAgrees_insert _ api cache (paramsOf cursor) hc
        rw [hp] at hc2
        obtain ⟨c2, n2, hrun⟩ := ih (Resp.nextPageCursor? p)
          (cache ++ [(cacheKey (paramsOf cursor), p)]) (i + 1) hc2 hchain2
        refine ⟨c2, n2 + 1, ?_⟩
        simp only [hrs, emitPage, hnt, if_true, List.length_cons] at hrun ⊢
        rw [hrun]
        simp [resultsOf, hrs]

theorem strDataEmpty : ("" : String).data = [] := rfl

theorem strMkData (s : String) : String.mk s.data = s := rfl

theorem digitCh_ne_nl (n : Nat) : digitCh n ≠ nlc := by
  unfold digitCh; split <;> decide

theorem hexCh_ne_nl (n : Nat) : hexCh n ≠ nlc := by
  unfold hexCh; split <;> decide

theorem natDigits_ne_nl : ∀ (n : Nat), nlc ∉ natDigits n := by
  intro n
  induction n using Nat.strong_induction_on with
  | _ n ih =>
    by_cases h10 : n < 10
    · rw [natDigits, dif_pos h10]
      intro hmem
      exact digitCh_ne_nl _ (List.mem_singleton.mp hmem).symm
    · rw [natDigits, dif_neg h10]
      intro hmem
      rcases List.mem_append.mp hmem with h | h
      · exact ih (n / 10) (Nat.div_lt_self (by omega) (by omega)) h
      · exact digitCh_ne_nl _ (List.mem_singleton.mp h).symm

theorem intToStr_ne_nl : ∀ (n : Int), nlc ∉ (intToStr n).data := by
  intro n
  cases n with
  | ofNat m => exact natDigits_ne_nl m
  | negSucc m =>
    intro h
    rcases List.mem_cons.mp h with h | h
    · exact absurd h (by decide)
    · exact natDigits_ne_nl (m + 1) h

theorem hex4_ne_nl (n : Nat) : nlc ∉ hex4 n := by
  intro h
  simp only [hex4, List.mem_cons, List.not_mem_nil, or_false] at h
  rcases h with h | h | h | h <;> exact hexCh_ne_nl _ h.symm

theorem escChar_ne_nl (c : Char) : nlc ∉ escChar c := by
  unfold escChar
  by_cases h1 : c = '"'
  · rw [if_pos h1]; decide
  rw [if_neg h1]
  by_cases h2 : c = '\\'
  · rw [if_pos h2]; decide
  rw [if_neg h2]
  by_cases h3 : c = nlc
  · rw [if_pos h3]; decide
  rw [if_neg h3]
  by_cases h4 : c = '\t'
  · rw [if_pos h4]; decide
  rw [if_neg h4]
  by_cases h5 : c = '\r'
  · rw [if_pos h5]; decide
  rw [if_neg h5]
  by_cases h6 : c = Char.ofNat 8
  · rw [if_pos h6]; decide
  rw [if_neg h6]
  by_cases h7 : c = Char.ofNat 12
  · rw [if_pos h7]; decide
  rw [if_neg h7]
  by_cases h8 : c.toNat < 32 ∨ c.toNat > 126
  · rw [if_pos h8]
    by_cases h9 : c.toNat < 65536
    · rw [if_pos h9]
      intro h
      simp only [List.mem_cons, List.not_mem_nil, or_false] at h
      rcases h with h | h | h
      · exact absurd h (by decide)
      · exact absurd h (by decide)
      · exact hex4_ne_nl _ h
    · rw [if_neg h9]
      intro h
      simp only [List.mem_append, List.mem_cons, List.not_mem_nil, or_false] at h
      rcases h with (h | h | h) | (h | h | h)
      · exact absurd h (by decide)
      · exact absurd h (by decide)
      · exact hex4_ne_nl _ h
      · exact absurd h (by decide)
      · exact absurd h (by decide)
      · exact hex4_ne_nl _ h
  · rw [if_neg h8]
    intro h
    exact h3 (List.mem_singleton.mp h).symm

theorem quoteStr_ne_nl (s : String) : nlc ∉ (quoteStr s).data := by
  rw [quoteStr]
  intro h
  rcases List.mem_cons.mp h with h | h
  · exact absurd h (by decide)
  rcases List.mem_append.mp h with h | h
  · obtain ⟨c, _, hc⟩ := List.mem_flatMap.mp h
    exact escChar_ne_nl c hc
  · exact absurd (List.mem_singleton.mp h) (by decide)

mutual

theorem dumpsJ_ne_nl : ∀ (j : JVal), nlc ∉ (dumpsJ j).data
  | .jnull => by rw [dumpsJ]; decide
  | .jbool true => by rw [dumpsJ]; decide
  | .jbool false => by rw [dumpsJ]; decide
  | .jnum n => by rw [dumpsJ]; exact intToStr_ne_nl n
  | .jstr s => by rw [dumpsJ]; exact quoteStr_ne_nl s
  | .jarr l => by
      rw [dumpsJ]
      intro h
      rw [String.data_append, String.data_append] at h
      rcases List.mem_append.mp h with h | h
      · rcases List.mem_append.mp h with h | h
        · exact absurd h (by decide)
        · exact dumpsList_ne_nl l h
      · exact absurd h (by decide)
  | .jobj l => by
      rw [dumpsJ]
      intro h
      rw [String.data_append, String.data_append] at h
      rcases List.mem_append.mp h with h | h
      · rcases List.mem_append.mp h with h | h
        · exact absurd h (by decide)
        · exact dumpsFields_ne_nl l h
      · exact absurd h (by decide)

theorem dumpsList_ne_nl : ∀ (l : List JVal), nlc ∉ (dumpsList l).data
  | [] => by rw [dumpsList]; decide
  | [x] => by rw [dumpsList]; exact dumpsJ_ne_nl x
  | x :: y :: rest => by
      rw [dumpsList]
      intro h
      rw [String.data_append, String.data_append] at h
      rcases List.mem_append.mp h with h | h
      · rcases List.mem_append.mp h with h | h
        · exact dumpsJ_ne_nl x h
        · exact absurd h (by decide)
      · exact dumpsList_ne_nl (y :: rest) h

theorem dumpsFields_ne_nl : ∀ (l : List (String × JVal)), nlc ∉ (dumpsFields l).data
  | [] => by rw [dumpsFields]; decide
  | [(k, v)] => by
      rw [dumpsFields]
      intro h
      rw [String.data_append, String.data_append] at h
      rcases List.mem_append.mp h with h | h
      · rcases List.mem_append.mp h with h | h
        · exact quoteStr_ne_nl k h
        · exact absurd h (by decide)
      · exact dumpsJ_ne_nl v h
  | (k, v) :: kv :: rest => by
      rw [dumpsFields]
      intro h
      rw [String.data_append, String.data_append, String.data_append,
        String.data_append] at h
      rcases List.mem_append.mp h with h | h
      · rcases List.mem_append.mp h with h | h
        · rcases List.mem_append.mp h with h | h
          · rcases List.mem_append.mp h with h | h
            · exact quoteStr_ne_nl k h
            · exact absurd h (by decide)
          · exact dumpsJ_ne_nl v h
        · exact absurd h (by decide)
      · exact dumpsFields_ne_nl (kv :: rest) h

end

theorem dumpsRec_ne_nl : ∀ (r : Rec), nlc ∉ (dumpsRec r).data
  | none => by rw [dumpsRec]; decide
  | some kvs => by rw [dumpsRec]; exact dumpsJ_ne_nl (.jobj kvs)

theorem pyLinesAux_append (bs : List Char) :
    ∀ (as acc : List Char), as.getLast? = some nlc →
      pyLinesAux acc (as ++ bs) = pyLinesAux acc as ++ pyLinesAux [] bs := by
  intro as
  induction as with
  | nil => intro acc h; simp at h
  | cons c as2 ih =>
    intro acc h
    cases as2 with
    | nil =>
      have hc : c = nlc := by simpa using h
      subst hc
      simp [pyLinesAux]
    | cons c2 as3 =>
      have h2 : (c2 :: as3).getLast? = some nlc := by
        rwa [List.getLast?_cons_cons] at h
      by_cases hc : c = nlc
      · subst hc
        rw [List.cons_append, pyLinesAux, pyLinesAux, if_pos rfl, if_pos rfl,
          ih [] h2, List.cons_append]
      · rw [List.cons_append, pyLinesAux, pyLinesAux, if_neg hc, if_neg hc]
        exact ih (c :: acc) h2

/-- Splitting a file's content at a trailing-newline boundary splits its
line list. -/
theorem pyLines_append {a b : String} (h : a.data.getLast? = some nlc) :
    pyLines (a ++ b) = pyLines a ++ pyLines b := by
  rw [pyLines, pyLines, pyLines, String.data_append]
  exact pyLinesAux_append _ _ _ h

theorem pyLinesAux_chunk :
    ∀ (ds : List Char), nlc ∉ ds → ∀ (acc w : List Char),
      pyLinesAux acc (ds ++ nlc :: w)
        = String.mk (acc.reverse ++ ds) :: pyLinesAux [] w := by
  intro ds
  induction ds with
  | nil => intro _ acc w; simp [pyLinesAux]
  | cons c ds2 ih =>
    intro hnl acc w
    have hc : c ≠ nlc := fun h => hnl (by simp [h])
    have hnl2 : nlc ∉ ds2 := fun h => hnl (by simp [h])
    rw [List.cons_append, pyLinesAux]
    simp only [if_neg hc]
    rw [ih hnl2 (c :: acc) w]
    simp [List.append_assoc]

/-- The lines of the text the jsonl loop writes are exactly the
serializations of the records that pass the write condition. -/
theorem pyLines_jsonlWrite (ad : Bool) (ex : List String) :
    ∀ (data : List Rec),
      pyLines (jsonlWrite ad ex data)
        = ((data.filter fun r => ad || !(pyInStr (pyStrip (dumpsRec r)) ex)).map dumpsRec) := by
  intro data
  induction data with
  | nil => simp [jsonlWrite, pyLines, pyLinesAux]
  | cons r rest ih =>
    rw [jsonlWrite]
    by_cases hcond : (ad || !(pyInStr (pyStrip (dumpsRec r)) ex)) = true
    · rw [if_pos hcond]
      simp only [List.filter_cons, hcond, if_true, List.map_cons]
      rw [← ih]
      rw [pyLines, String.data_append, String.data_append]
      have hmkd : (String.mk [nlc]).data = [nlc] := rfl
      rw [hmkd, List.append_assoc, List.singleton_append]
      rw [pyLinesAux_chunk (dumpsRec r).data (dumpsRec_ne_nl r) [] _]
      rw [List.reverse_nil, List.nil_append, strMkData, pyLines]
    · rw [if_neg hcond]
      have hf : (ad || !(pyInStr (pyStrip (dumpsRec r)) ex)) = false := by
        simpa using hcond
      simp only [List.filter_cons, hf, Bool.false_eq_true, if_false]
      rw [← ih]
      have he : (("" : String) ++ jsonlWrite ad ex rest) = jsonlWrite ad ex rest := by
        apply strExt
        rw [String.data_append, strDataEmpty, List.nil_append]
      rw [he]

/-- When every record's stripped serialization is among the existing lines,
the jsonl loop writes nothing. -/
theorem jsonlWrite_nil_of_all_in (ex : List String) :
    ∀ (data : List Rec), (∀ r ∈ data, pyInStr (pyStrip (dumpsRec r)) ex = true) →
      jsonlWrite false ex data = "" := by
  intro data
  induction data with
  | nil => intro _; rfl
  | cons r rest ih =>
    intro h
    rw [jsonlWrite]
    have h1 := h r (List.mem_cons_self r rest)
    rw [h1]
    simp only [Bool.not_true, Bool.or_false, Bool.false_eq_true, if_false]
    rw [ih fun r2 hr2 => h r2 (List.mem_cons_of_mem _ hr2)]
    apply strExt
    rw [String.data_append, strDataEmpty, List.nil_append]

/-- A record never has keys outside its own key list (so `writerow` cannot
raise for a record whose keys are the writer's field names). -/
theorem rowHasExtraKeys_self (r : Row) : rowHasExtraKeys (r.map Prod.fst) r = false := by
  rw [rowHasExtraKeys, List.any_eq_false]
  intro kv hkv
  have hmem : (List.map Prod.fst r).any (fun f => f = kv.1) = true := by
    rw [List.any_eq_true]
    exact ⟨kv.1, List.mem_map.mpr ⟨kv, hkv, rfl⟩, by simp⟩
  rw [hmem]
  decide

/-- Rows read back from a file survive appending rows to the file. -/
theorem csvReadback_mono {tbl ext : List (List String)} {e : ReadRow}
    (h : e ∈ csvReadback tbl) : e ∈ csvReadback (tbl ++ ext) := by
  cases tbl with
  | nil => simp [csvReadback] at h
  | cons header rows =>
    rw [csvReadback] at h
    rw [List.cons_append, csvReadback, List.filter_append, List.map_append]
    exact List.mem_append_left _ h

/-- In an error-free run of the csv loop, every record that passes the
dedup test contributes its row of cells to the written rows. -/
theorem csvWriteLoop_written_mem (fn : List String) (ex : List ReadRow) :
    ∀ (data : List Rec), (csvWriteLoop false fn ex data).2 = none →
      ∀ r : Row, some r ∈ data → ex.any (pyDictEq r) = false →
        rowCells fn r ∈ (csvWriteLoop false fn ex data).1 := by
  intro data
  induction data with
  | nil =>
    intro _ r hr
    simp at hr
  | cons a rest ih =>
    intro herr r hr hnot
    cases a with
    | none =>
      rw [csvWriteLoop] at herr
      cases herr
    | some rr =>
      rw [csvWriteLoop] at herr ⊢
      cases hex : ex.any (pyDictEq rr) with
      | true =>
        rw [hex] at herr
        simp only [Bool.not_true, Bool.or_self, Bool.false_eq_true, if_false] at herr
        simp only [Bool.not_true, Bool.or_self, Bool.false_eq_true, if_false]
        rcases List.mem_cons.mp hr with he | he
        · cases he
          rw [hnot] at hex
          cases hex
        · exact ih herr r he hnot
      | false =>
        rw [hex] at herr
        simp only [Bool.not_false, Bool.or_true, eq_self_iff_true, if_true] at herr
        simp only [Bool.not_false, Bool.or_true, eq_self_iff_true, if_true]
        cases hkeys : rowHasExtraKeys fn rr with
        | true =>
          rw [hkeys] at herr
          simp only [eq_self_iff_true, if_true] at herr
          cases herr
        | false =>
          rw [hkeys] at herr
          simp only [Bool.false_eq_true, if_false] at herr
          simp only [Bool.false_eq_true, if_false]
          rcases List.mem_cons.mp hr with he | he
          · cases he
            exact List.mem_cons_self _ _
          · exact List.mem_cons_of_mem _ (ih herr r he hnot)

/-- Re-running the csv loop against a larger read-back list, when the first
run was error-free and wrote only rows of `R`, again runs without error and
writes only rows of `R`. -/
theorem csvWriteLoop_second (fn : List String) :
    ∀ (data : List Rec) (ex0 ex1 : List ReadRow) (R : List (List String)),
      (csvWriteLoop false fn ex0 data).2 = none →
      (∀ e ∈ ex0, e ∈ ex1) →
      (∀ r : Row, some r ∈ data → ex0.any (pyDictEq r) = false → rowCells fn r ∈ R) →
      (csvWriteLoop false fn ex1 data).2 = none
        ∧ ∀ c ∈ (csvWriteLoop false fn ex1 data).1, c ∈ R := by
  intro data
  induction data with
  | nil =>
    intro ex0 ex1 R _ _ _
    exact ⟨rfl, by intro c hc; simp [csvWriteLoop] at hc⟩
  | cons a rest ih =>
    intro ex0 ex1 R herr hsub hW
    cases a with
    | none =>
      rw [csvWriteLoop] at herr
      cases herr
    | some rr =>
      rw [csvWriteLoop] at herr
      have hW2 : ∀ r : Row, some r ∈ rest → ex0.any (pyDictEq r) = false →
          rowCells fn r ∈ R :=
        fun r hr hn => hW r (List.mem_cons_of_mem _ hr) hn
      cases hex : ex0.any (pyDictEq rr) with
      | true =>
        rw [hex] at herr
        simp only [Bool.not_true, Bool.or_self, Bool.false_eq_true, if_false] at herr
        obtain ⟨e, he0, heq⟩ := List.any_eq_true.mp hex
        have hex1 : ex1.any (pyDictEq rr) = true :=
          List.any_eq_true.mpr ⟨e, hsub e he0, heq⟩
        rw [csvWriteLoop, hex1]
        simp only [Bool.not_true, Bool.or_self, Bool.false_eq_true, if_false]
        exact ih ex0 ex1 R herr hsub hW2
      | false =>
        rw [hex] at herr
        simp only [Bool.not_false, Bool.or_true, eq_self_iff_true, if_true] at herr
        cases hkeys : rowHasExtraKeys fn rr with
        | true =>
          rw [hkeys] at herr
          simp only [eq_self_iff_true, if_true] at herr
          cases herr
        | false =>
          rw [hkeys] at herr
          simp only [Bool.false_eq_true, if_false] at herr
          have hmem : rowCells fn rr ∈ R := hW rr (List.mem_cons_self _ _) hex
          obtain ⟨ihe, ihm⟩ := ih ex0 ex1 R herr hsub hW2
          rw [csvWriteLoop]
          cases hex1 : ex1.any (pyDictEq rr) with
          | true =>
            simp only [Bool.not_true, Bool.or_self, Bool.false_eq_true, if_false]
            exact ⟨ihe, ihm⟩
          | false =>
            simp only [Bool.not_false, Bool.or_true, if_true, hkeys,
              Bool.false_eq_true, if_false]
            refine ⟨ihe, ?_⟩
            intro c hc
            rcases List.mem_cons.mp hc with he | he
            · subst he; exact hmem
            · exact ihm c he

/-! ## Claim theorems -/

/-- Claim C1: for every cursor whose derived cache key is already present in
the persistent cache, `fetch_all_documents` uses the cached page response
and issues no network call for that page (the run continues as the pure
page-emission continuation `emitPage`, which adds no network call and
leaves the cache unchanged); consequently, after a prior run from any cache
store completed normally, a subsequent run with the same credential from the
saved store issues zero network calls and yields exactly the same record
sequence. -/
theorem fetch_cached_page_and_replay {α : Type} (api : Nat → Option String → Resp α) :
    (∀ (fuel i : Nat) (cursor : Option String) (cache : Cache α) (v : Resp α) (rs : List α),
      lookupC (cacheKey (paramsOf cursor)) cache = some v → v.results? = some rs →
      fetch_all_documents api (fuel + 1) i cursor cache
        = emitPage (fetch_all_documents api fuel) i rs v.nextPageCursor? cache)
    ∧ ∀ (fuel : Nat) (cache0 : Cache α),
        (fetch_all_documents api fuel 0 none cache0).outcome = .done →
        fetch_all_documents api fuel 0 none (fetch_all_documents api fuel 0 none cache0).cache
          = ⟨(fetch_all_documents api fuel 0 none cache0).emitted,
             (fetch_all_documents api fuel 0 none cache0).cache, 0, [], .done⟩ := by
  constructor
  · intro fuel i cursor cache v rs hl hres
    rw [fetch_all_documents, fetchStep, hl]
    simp only [hres]
  · intro fuel cache0 hdone
    exact run_replay api api fuel 0 none cache0 _ rfl hdone fuel (le_refl fuel)

/-- Witness for C1: a one-page remote state; the first run completes with
one network call, the replay from its saved cache makes zero calls and
emits the same records. -/
theorem fetch_cached_page_and_replay_witness :
    (fetch_all_documents apiOneW 1 0 none []).outcome = .done
    ∧ fetch_all_documents apiOneW 1 0 none (fetch_all_documents apiOneW 1 0 none []).cache
        = ⟨(fetch_all_documents apiOneW 1 0 none []).emitted,
           (fetch_all_documents apiOneW 1 0 none []).cache, 0, [], .done⟩ :=
  ⟨rfl, (fetch_cached_page_and_replay apiOneW).2 1 [] rfl⟩

/-- Claim C2: for every finite chain of page responses in which each page
carries a (truthy) continuation token leading to the next page and the last
page carries none, the run emits exactly the concatenation of the pages'
`results`, in page order and in-page order, sleeps never, and terminates
normally at the last page of the chain. -/
theorem fetch_pagination_complete {α : Type} (api : Option String → Resp α)
    (pages : List (Resp α)) (cursor : Option String) (cache0 : Cache α) (i : Nat)
    (hagree : cacheAgrees api cache0) (hchain : isChain api cursor pages) :
    (fetch_all_documents (fun _ => api) pages.length i cursor cache0).emitted
        = (pages.map resultsOf).flatten
      ∧ (fetch_all_documents (fun _ => api) pages.length i cursor cache0).outcome = .done
      ∧ (fetch_all_documents (fun _ => api) pages.length i cursor cache0).sleeps = [] := by
  obtain ⟨c, n, hrun⟩ := run_chain api pages cursor cache0 i hagree hchain
  rw [hrun]
  exact ⟨rfl, rfl, rfl⟩

/-- Witness for C2: a two-page chain P1 → P2 with cursor `c1` emits
`P1.results ++ P2.results` and finishes normally. -/
theorem fetch_pagination_complete_witness :
    cacheAgrees apiChainW [] ∧ isChain apiChainW none [pageOneW, pageTwoW]
    ∧ (fetch_all_documents (fun _ => apiChainW) [pageOneW, pageTwoW].length 0 none []).emitted
        = ([pageOneW, pageTwoW].map resultsOf).flatten
    ∧ (fetch_all_documents (fun _ => apiChainW) [pageOneW, pageTwoW].length 0 none []).outcome
        = .done := by
  have hagree : cacheAgrees apiChainW [] := by
    intro p v h
    rw [lookupC] at h
    cases h
  have hchain : isChain apiChainW none [pageOneW, pageTwoW] :=
    ⟨rfl, rfl, rfl, rfl, rfl, rfl⟩
  refine ⟨hagree, hchain, ?_, ?_⟩
  · exact (fetch_pagination_complete apiChainW [pageOneW, pageTwoW] none [] 0 hagree hchain).1
  · exact (fetch_pagination_complete apiChainW [pageOneW, pageTwoW] none [] 0 hagree hchain).2.1

/-- Claim C3: during any run, the cache only ever gains entries: every
binding present at the start is still present (and unchanged, first-match
lookup) at the end, and the new entries are for keys that were absent at the
start, are pairwise distinct, and hold only responses that contain the
`results` field — throttled and error responses are never cached. -/
theorem fetch_cache_write_invariant {α : Type} (api : Nat → Option String → Resp α)
    (fuel i : Nat) (cursor : Option String) (cache0 : Cache α) :
    (∀ (k : String) (v : Resp α), lookupC k cache0 = some v →
        lookupC k (fetch_all_documents api fuel i cursor cache0).cache = some v)
    ∧ ∃ ext, (fetch_all_documents api fuel i cursor cache0).cache = cache0 ++ ext
        ∧ (ext.map Prod.fst).Nodup
        ∧ ∀ kv ∈ ext, lookupC kv.1 cache0 = none ∧ kv.2.results?.isSome = true :=
  ⟨fun k v h => run_lookup_mono api fuel i cursor cache0 k v h,
   run_cache_ext api fuel i cursor cache0⟩

/-- Witness for C3: a pre-existing binding survives a run that fetches and
caches a new page. -/
theorem fetch_cache_write_invariant_witness :
    lookupC "k" [("k", respKW)] = some respKW
    ∧ lookupC "k" (fetch_all_documents apiOneW 1 0 none [("k", respKW)]).cache = some respKW :=
  ⟨rfl, (fetch_cache_write_invariant apiOneW 1 0 none [("k", respKW)]).1 "k" respKW rfl⟩

/-- Claim C4 (amended): for a fetched response body that lacks `results` and
whose `detail` matches the throttling pattern `'Request was throttled.
Expected available in N seconds.'` — *including the two surrounding
single-quote characters, which are part of the regex literal at line 51 of
the source* — with a nonempty digit group N, the loop sleeps N seconds and
retries the same page: the cursor and cache are unchanged, one more network
call is counted, nothing is emitted for the failed attempt; and in the
throttle-once-then-succeed scenario the eventual page's records are emitted
exactly once after the specified wait. -/
theorem fetch_throttle_retry_amended :
    (∀ (α : Type) (api : Nat → Option String → Resp α) (fuel i : Nat)
        (cursor : Option String) (cache : Cache α) (d : String) (ds : List Char),
      lookupC (cacheKey (paramsOf cursor)) cache = none →
      (api i (paramsOf cursor)).results? = none →
      (api i (paramsOf cursor)).detail? = some d →
      throttleRegexDigits d = some ds → ds.isEmpty = false →
      fetch_all_documents api (fuel + 1) i cursor cache
        = ⟨(fetch_all_documents api fuel (i + 1) cursor cache).emitted,
           (fetch_all_documents api fuel (i + 1) cursor cache).cache,
           (fetch_all_documents api fuel (i + 1) cursor cache).calls + 1,
           natOfDigits ds :: (fetch_all_documents api fuel (i + 1) cursor cache).sleeps,
           (fetch_all_documents api fuel (i + 1) cursor cache).outcome⟩)
    ∧ ∀ (α : Type) (rs : List α) (d : String) (ds : List Char),
        throttleRegexDigits d = some ds → ds.isEmpty = false →
        fetch_all_documents
            (fun j _ => if j = 0 then ⟨none, some d, none⟩ else ⟨some rs, none, none⟩)
            2 0 none []
          = ⟨rs, [(cacheKey none, ⟨some rs, none, none⟩)], 2, [natOfDigits ds], .done⟩ := by
  constructor
  · intro α api fuel i cursor cache d ds hl hres hdet hm hds
    rw [fetch_all_documents, fetchStep, hl]
    simp only [hres, hdet, hm, hds, Bool.false_eq_true, if_false]
  · intro α rs d ds hm hds
    rw [show (2 : Nat) = 0 + 1 + 1 from rfl]
    rw [fetch_all_documents, fetchStep]
    simp only [paramsOf, lookupC, eq_self_iff_true, if_true, hm, hds, Bool.false_eq_true,
      if_false]
    rw [fetch_all_documents, fetchStep]
    simp [paramsOf, lookupC, nextTruthy, emitPage, hm, hds]

/-- Witness for C4: the quoted throttling message with N = 5; the
throttle-once-then-succeed remote state emits the success page once, after
sleeping 5 seconds, with two network calls in total. -/
theorem fetch_throttle_retry_amended_witness :
    throttleRegexDigits detQuotedW = some ['5'] ∧ (['5'] : List Char).isEmpty = false
    ∧ fetch_all_documents apiThrottleW 2 0 none []
        = ⟨[7], [(cacheKey none, ⟨some [7], none, none⟩)], 2, [5], .done⟩ :=
  ⟨rfl, rfl, (fetch_throttle_retry_amended).2 Nat [7] detQuotedW ['5'] rfl rfl⟩

/-- Claim C4 counterexample: the throttling message exactly as the claim
(and the live API) words it — `Request was throttled. Expected available in
5 seconds.` *without* surrounding single quotes — does not match the
source's regex, so the run raises the fatal `ValueError` instead: no sleep
is recorded, the page is not retried, nothing is emitted. -/
theorem fetch_throttle_unquoted_cex :
    throttleRegexDigits detPlainW = none
    ∧ fetch_all_documents apiPlainW 2 0 none [] = ⟨[], [], 1, [], .error fetchErrMsg⟩ :=
  ⟨rfl, rfl⟩

/-- Claim C5: with `file_format` unspecified the format is inferred from
the destination path's extension (`Path(file_path).suffix.lstrip(".")`);
whenever the requested or inferred format is neither `jsonl` nor `csv`, the
call fails with the unsupported-format error before any file I/O: the
destination file is not read, and its state is unchanged — neither created,
truncated, nor written. -/
theorem append_unsupported_format (data : List Rec) (file_path : String)
    (file_format : Option String) (ov ad : Bool) (disk : Option FileData)
    (h1 : resolvedFormat file_format file_path ≠ "jsonl")
    (h2 : resolvedFormat file_format file_path ≠ "csv") :
    append_to_file data file_path file_format ov ad disk
      = ⟨disk, some ("Unsupported file format: " ++ resolvedFormat file_format file_path),
          false⟩
    ∧ resolvedFormat none file_path = lstripDots (pySuffix file_path) := by
  refine ⟨?_, rfl⟩
  rw [append_to_file.eq_def]
  simp only [if_neg h1, if_neg h2]

/-- Witness for C5: a `.txt` destination with no explicit format resolves
to `txt` and is rejected without touching the file. -/
theorem append_unsupported_format_witness :
    resolvedFormat none "out.txt" ≠ "jsonl" ∧ resolvedFormat none "out.txt" ≠ "csv"
    ∧ append_to_file [] "out.txt" none false false none
        = ⟨none, some ("Unsupported file format: " ++ resolvedFormat none "out.txt"),
            false⟩ :=
  ⟨by decide, by decide,
    (append_unsupported_format [] "out.txt" none false false none (by decide) (by decide)).1⟩

/-- Claim C8 (code bug): in csv mode with a non-empty record sequence and no
pre-existing destination file, appending with `overwrite=False` writes the
data row but *no* header row, because `os.path.exists` at line 103 runs
after `open(file_path, "a")` at line 97 has already created the file; a
header appears only when `overwrite=True`.  The claim (and the spec) say a
header is written whenever a new file is created. -/
theorem csv_header_unwritten_on_append_create :
    append_to_file [some [("a", .jstr "1")]] "out.csv" none false false none
      = ⟨some (.table [["1"]]), none, false⟩
    ∧ append_to_file [some [("a", .jstr "1")]] "out.csv" none true false none
      = ⟨some (.table [["a"], ["1"]]), none, false⟩ :=
  ⟨rfl, rfl⟩

/-- Claim C9 (code bug): in csv mode with an empty record sequence and no
pre-existing destination file, `open(file_path, "a")` at line 97 creates an
empty file before the first record is peeked, and `next(iter(first_items))`
at line 99 then raises an uncaught `StopIteration`; the call neither
returns normally nor leaves the filesystem untouched. -/
theorem csv_empty_input_creates_file :
    append_to_file ([] : List Rec) "out.csv" none false false none
      = ⟨some (.table []), some stopIterMsg, false⟩ := rfl

/-- Claim C6 counterexample: a pre-existing one-line jsonl file `7` with no
terminating newline.  Appending the record `{}` twice (two calls): the
first append glues `{}` onto the existing line, producing the single line
`7{}`; the second call does not find `{}` among the lines and appends it
again, so the file's set of distinct stripped lines grows from `{7{}}` to
`{7{}, {}}` — the second call is not idempotent on the distinct-line set. -/
theorem jsonl_dedup_no_trailing_newline_cex :
    pyStrip (dumpsRec (some [])) ∈
        (pyLines (textOf ((append_to_file [some []] "o.jsonl" (some "jsonl") false false
          ((append_to_file [some []] "o.jsonl" (some "jsonl") false false
            (some (.text "7"))).disk)).disk))).map pyStrip
    ∧ pyStrip (dumpsRec (some [])) ∉
        (pyLines (textOf ((append_to_file [some []] "o.jsonl" (some "jsonl") false false
          (some (.text "7"))).disk))).map pyStrip := by
  decide

/-- Claim C6 (amended): in jsonl mode with `overwrite=False` and
`allow_duplicates=False`, for every record sequence and every pre-existing
jsonl file whose content is empty or ends in a newline, the first call
appends exactly the records whose stripped single-line serialization is not
already among the file's stripped lines, and a second call with the same
records is the identity on the file — in particular the file's set of
distinct (whitespace-trimmed) lines is unchanged after the second call.
(The amendment requires the pre-existing content to be newline-terminated
or empty: appending to a file whose last line is unterminated glues the
first written record onto that line, which breaks the idempotence — see the
counterexample.) -/
theorem jsonl_dedup_idem_amended (data : List Rec) (path : String) (s0 : String)
    (hnl : s0 = "" ∨ s0.data.getLast? = some nlc) :
    append_to_file data path (some "jsonl") false false
        ((append_to_file data path (some "jsonl") false false (some (.text s0))).disk)
      = append_to_file data path (some "jsonl") false false (some (.text s0))
    ∧ textOf ((append_to_file data path (some "jsonl") false false (some (.text s0))).disk)
        = s0 ++ jsonlWrite false ((pyLines s0).map pyStrip) data
    ∧ ∀ l, (l ∈ (pyLines (textOf ((append_to_file data path (some "jsonl") false false
              ((append_to_file data path (some "jsonl") false false
                (some (.text s0))).disk)).disk))).map pyStrip
          ↔ l ∈ (pyLines (textOf ((append_to_file data path (some "jsonl") false false
              (some (.text s0))).disk))).map pyStrip) := by
  have hred : ∀ (s : String), append_to_file data path (some "jsonl") false false
        (some (.text s))
      = ⟨some (.text (s ++ jsonlWrite false ((pyLines s).map pyStrip) data)), none, true⟩ :=
    fun s => rfl
  have hsplit : pyLines (s0 ++ jsonlWrite false ((pyLines s0).map pyStrip) data)
      = pyLines s0 ++ pyLines (jsonlWrite false ((pyLines s0).map pyStrip) data) := by
    rcases hnl with h0 | hlast
    · subst h0
      have he : ("" : String) ++ jsonlWrite false ((pyLines "").map pyStrip) data
          = jsonlWrite false ((pyLines "").map pyStrip) data :=
        strExt (by rw [String.data_append, strDataEmpty, List.nil_append])
      rw [he]
      have h0l : pyLines "" = [] := rfl
      rw [h0l, List.nil_append]
    · exact pyLines_append hlast
  have hmem : ∀ r ∈ data,
      pyInStr (pyStrip (dumpsRec r))
        ((pyLines (s0 ++ jsonlWrite false ((pyLines s0).map pyStrip) data)).map pyStrip)
        = true := by
    intro r hr
    rw [pyInStr_true, hsplit, List.map_append]
    cases hb : pyInStr (pyStrip (dumpsRec r)) ((pyLines s0).map pyStrip) with
    | true => exact List.mem_append_left _ (pyInStr_true.mp hb)
    | false =>
      refine List.mem_append_right _ ?_
      rw [pyLines_jsonlWrite]
      have hfil : r ∈ data.filter
          fun r2 => false || !(pyInStr (pyStrip (dumpsRec r2)) ((pyLines s0).map pyStrip)) := by
        rw [List.mem_filter]
        exact ⟨hr, by rw [hb]; rfl⟩
      exact List.mem_map.mpr ⟨dumpsRec r, List.mem_map.mpr ⟨r, hfil, rfl⟩, rfl⟩
  have hW2 : jsonlWrite false
      ((pyLines (s0 ++ jsonlWrite false ((pyLines s0).map pyStrip) data)).map pyStrip) data
      = "" := jsonlWrite_nil_of_all_in _ data hmem
  have happ : (s0 ++ jsonlWrite false ((pyLines s0).map pyStrip) data) ++ ("" : String)
      = s0 ++ jsonlWrite false ((pyLines s0).map pyStrip) data :=
    strExt (by rw [String.data_append, strDataEmpty, List.append_nil])
  refine ⟨?_, ?_, ?_⟩
  · rw [hred s0]
    show append_to_file data path (some "jsonl") false false
        (some (.text (s0 ++ jsonlWrite false ((pyLines s0).map pyStrip) data))) = _
    rw [hred _, hW2, happ]
  · rw [hred s0]
    rfl
  · intro l
    rw [hred s0]
    show l ∈ (pyLines (textOf ((append_to_file data path (some "jsonl") false false
        (some (.text (s0 ++ jsonlWrite false ((pyLines s0).map pyStrip) data)))).disk))).map
          pyStrip ↔ _
    rw [hred _, hW2, happ]

/-- Witness for C6: an empty pre-existing file; the first call writes the
record `{}` once and the second call changes nothing. -/
theorem jsonl_dedup_idem_amended_witness :
    (("" : String) = "" ∨ ("" : String).data.getLast? = some nlc)
    ∧ append_to_file [some []] "o2.jsonl" (some "jsonl") false false
        ((append_to_file [some []] "o2.jsonl" (some "jsonl") false false
          (some (.text ""))).disk)
      = append_to_file [some []] "o2.jsonl" (some "jsonl") false false (some (.text "")) :=
  ⟨Or.inl rfl, (jsonl_dedup_idem_amended [some []] "o2.jsonl" "" (Or.inl rfl)).1⟩

/-- Two successive csv appends of the same records: when the first call
raises no error, the second call's rows are all already present after the
first call, and everything present stays present. -/
theorem appendCsv_two_calls (data : List Rec) (tbl0 : List (List String))
    (h1 : (appendCsv data false false (some tbl0)).err = none) :
    ∃ T1 T2, (appendCsv data false false (some tbl0)).disk = some (.table T1)
      ∧ (appendCsv data false false (some T1)).disk = some (.table T2)
      ∧ (∀ c ∈ T2, c ∈ T1) ∧ ∀ c ∈ T1, c ∈ T2 := by
  cases data with
  | nil => exact Option.noConfusion h1
  | cons first rest =>
    cases first with
    | none =>
      exact ⟨tbl0, tbl0, rfl, rfl, fun c h => h, fun c h => h⟩
    | some firstRow =>
      have herr1 : (csvWriteLoop false (firstRow.map Prod.fst) (csvReadback tbl0)
          (some firstRow :: rest)).2 = none := h1
      refine ⟨_, _, rfl, rfl, ?_, ?_⟩
      · intro c hc
        rcases List.mem_append.mp hc with h | h
        · rcases List.mem_append.mp h with h2 | h2
          · exact h2
          · exact absurd h2 (List.not_mem_nil c)
        · refine (csvWriteLoop_second (firstRow.map Prod.fst) (some firstRow :: rest)
            (csvReadback tbl0) _ _ herr1 ?_ ?_).2 c h
          · intro e he
            exact csvReadback_mono (csvReadback_mono he)
          · intro r hr hnot
            exact List.mem_append_right _
              (csvWriteLoop_written_mem _ _ _ herr1 r hr hnot)
      · intro c hc
        exact List.mem_append_left _ (List.mem_append_left _ hc)

/-- Claim C7 (amended): in csv mode with `overwrite=False` and
`allow_duplicates=False`, against a pre-existing tabular file, *provided
the first call raises no error*, calling twice with the same records leaves
the file's set of distinct rows unchanged after the second call; and the
write loop skips a record exactly when a record equal to it under Python
dict equality (full field-value equality) is among the rows read back from
the file at the start of that call.  (The amendment adds the error-free
hypothesis: when the first call dies in `writerow` on a record with fields
outside the writer's field names, the second call can proceed past that
record and write rows the first call never reached — see the
counterexample.) -/
theorem csv_dedup_idem_amended (data : List Rec) (path : String)
    (tbl0 : List (List String))
    (h1 : (append_to_file data path (some "csv") false false (some (.table tbl0))).err
      = none) :
    (∀ c, c ∈ tableRows ((append_to_file data path (some "csv") false false
          ((append_to_file data path (some "csv") false false
            (some (.table tbl0))).disk)).disk)
        ↔ c ∈ tableRows ((append_to_file data path (some "csv") false false
            (some (.table tbl0))).disk))
    ∧ ∀ (r : Row) (ex : List ReadRow),
        ((false || !(ex.any (pyDictEq r))) = false ↔ ∃ e ∈ ex, pyDictEq r e = true) := by
  constructor
  · have h1c : (appendCsv data false false (some tbl0)).err = none := h1
    obtain ⟨T1, T2, hd1, hd2, h21, h12⟩ := appendCsv_two_calls data tbl0 h1c
    intro c
    have e1 : append_to_file data path (some "csv") false false (some (.table tbl0))
        = appendCsv data false false (some tbl0) := rfl
    rw [e1, hd1]
    have e2 : append_to_file data path (some "csv") false false (some (.table T1))
        = appendCsv data false false (some T1) := rfl
    rw [e2, hd2]
    show c ∈ T2 ↔ c ∈ T1
    exact ⟨fun h => h21 c h, fun h => h12 c h⟩
  · intro r ex
    simp [List.any_eq_true]

/-- Claim C7 counterexample: records `[{a: "1"}, {a: "1", b: None}, {a: "9"}]`
against a pre-existing file with header row `a,b` and no data rows.  The
first call writes `1`, then dies in `writerow` on the second record (field
`b` is outside the field names taken from the first record), never reaching
`{a: "9"}`.  The second call reads the row `1` back as `{a: "1", b: None}`,
which equals the second record, skips it, and reaches and writes `9` — a row
that was not in the file after the first call.  The distinct-row set grows,
so the claim as stated (without the error-free proviso) is false. -/
theorem csv_dedup_error_truncation_cex :
    ["9"] ∈ tableRows ((append_to_file cdataW "out.csv" (some "csv") false false
        ((append_to_file cdataW "out.csv" (some "csv") false false
          (some (.table [["a", "b"]]))).disk)).disk)
    ∧ ["9"] ∉ tableRows ((append_to_file cdataW "out.csv" (some "csv") false false
        (some (.table [["a", "b"]]))).disk) := by
  decide

/-- Witness for C7: the same record appended twice over a pre-existing file
that already contains it; both calls leave the distinct-row set unchanged. -/
theorem csv_dedup_idem_amended_witness :
    (append_to_file [some [("a", .jstr "1")]] "w7.csv" (some "csv") false false
        (some (.table [["a"], ["1"]]))).err = none
    ∧ ∀ c, c ∈ tableRows ((append_to_file [some [("a", .jstr "1")]] "w7.csv" (some "csv")
          false false ((append_to_file [some [("a", .jstr "1")]] "w7.csv" (some "csv")
            false false (some (.table [["a"], ["1"]]))).disk)).disk)
        ↔ c ∈ tableRows ((append_to_file [some [("a", .jstr "1")]] "w7.csv" (some "csv")
            false false (some (.table [["a"], ["1"]]))).disk) :=
  ⟨rfl, (csv_dedup_idem_amended [some [("a", .jstr "1")]] "w7.csv" [["a"], ["1"]] rfl).1⟩

/-- Claim C10: with `allow_duplicates=False`, deduplication compares only
against the destination file's content as read once at the start of the
call, not against records written during the same call: when the input
contains the same record twice and that record is not already in the file,
both occurrences are written — in jsonl mode two identical lines, in csv
mode two identical rows. -/
theorem append_dedup_only_against_initial :
    (∀ (r : Rec) (path : String) (s0 : String),
      pyInStr (pyStrip (dumpsRec r)) ((pyLines s0).map pyStrip) = false →
      append_to_file [r, r] path (some "jsonl") false false (some (.text s0))
        = ⟨some (.text (s0 ++ (dumpsRec r ++ String.mk [nlc]
            ++ (dumpsRec r ++ String.mk [nlc])))), none, true⟩)
    ∧ ∀ (row : Row) (path : String) (tbl : List (List String)),
        (csvReadback tbl).any (pyDictEq row) = false →
        append_to_file [some row, some row] path (some "csv") false false
            (some (.table tbl))
          = ⟨some (.table (tbl ++ [rowCells (row.map Prod.fst) row,
              rowCells (row.map Prod.fst) row])), none, true⟩ := by
  constructor
  · intro r path s0 hnot
    have h1 : append_to_file [r, r] path (some "jsonl") false false (some (.text s0))
        = ⟨some (.text (s0 ++ jsonlWrite false ((pyLines s0).map pyStrip) [r, r])),
            none, true⟩ := rfl
    rw [h1]
    have h2 : jsonlWrite false ((pyLines s0).map pyStrip) [r, r]
        = dumpsRec r ++ String.mk [nlc] ++ (dumpsRec r ++ String.mk [nlc]) := by
      rw [jsonlWrite, jsonlWrite, jsonlWrite, hnot]
      simp only [Bool.not_false, Bool.or_true, eq_self_iff_true, if_true]
      apply strExt
      simp [String.data_append, strDataEmpty]
    rw [h2]
  · intro row path tbl hnot
    have h1 : append_to_file [some row, some row] path (some "csv") false false
        (some (.table tbl))
        = ⟨some (.table (tbl ++ [] ++ (csvWriteLoop false (row.map Prod.fst)
            (csvReadback tbl) [some row, some row]).1)),
           (csvWriteLoop false (row.map Prod.fst) (csvReadback tbl)
            [some row, some row]).2, true⟩ := rfl
    rw [h1]
    have hloop : csvWriteLoop false (row.map Prod.fst) (csvReadback tbl)
        [some row, some row]
        = ([rowCells (row.map Prod.fst) row, rowCells (row.map Prod.fst) row], none) := by
      rw [csvWriteLoop, hnot, csvWriteLoop, hnot, csvWriteLoop]
      simp [rowHasExtraKeys_self]
    rw [hloop]
    simp

/-- Witness for C10: the record `{}` (jsonl) and the record `{a: "1"}`
(csv), each absent from its pre-existing file, are written twice. -/
theorem append_dedup_only_against_initial_witness :
    pyInStr (pyStrip (dumpsRec (some []))) ((pyLines "").map pyStrip) = false
    ∧ append_to_file [some [], some []] "w10.jsonl" (some "jsonl") false false
        (some (.text ""))
      = ⟨some (.text ("" ++ (dumpsRec (some []) ++ String.mk [nlc]
          ++ (dumpsRec (some []) ++ String.mk [nlc])))), none, true⟩
    ∧ (csvReadback [["a"]]).any (pyDictEq [("a", .jstr "1")]) = false
    ∧ append_to_file [some [("a", JVal.jstr "1")], some [("a", JVal.jstr "1")]] "w10.csv"
        (some "csv") false false (some (.table [["a"]]))
      = ⟨some (.table ([["a"]] ++ [rowCells (([("a", JVal.jstr "1")] : Row).map Prod.fst)
          [("a", JVal.jstr "1")], rowCells (([("a", JVal.jstr "1")] : Row).map Prod.fst)
          [("a", JVal.jstr "1")]])), none, true⟩ :=
  ⟨rfl, (append_dedup_only_against_initial).1 (some []) "w10.jsonl" "" rfl,
   rfl, (append_dedup_only_against_initial).2 [("a", JVal.jstr "1")] "w10.csv" [["a"]] rfl⟩

end ReadwiseExport
